import Mathlib

/-!
Verification development for the rain front-end: a shallow embedding of the
parser (`src/parser.rs`), the semantic checker (`src/semck.rs`) and the
module fingerprinting step (`src/module.rs`), together with theorems about
the claims of the specification.
-/

set_option maxHeartbeats 1000000

namespace Rain

/-- Lexical token kinds (external `lexer::Token`), as consumed by the parser.
The `f64` payload of `Float` is modelled opaquely by its bit pattern. -/
inductive Token where
  | Add | Sub | Mul | Div | Car | Not | Neg
  | Pal | Par | Sql | Sqr | Dot | Col | Com | Ass | Or
  | If | Else | For | While | Loop | Break | Continue
  | Return | Pass | Func | Catch | In
  | Null
  | Bool (b : Bool)
  | Int (i : Int)
  | Float (bits : Nat)
  | Str (s : String)
  | Name (s : String)
  | Table
  | Enter | Exit | End | EOF
deriving DecidableEq, Repr

/-- A source span (external `codemap`): byte positions only, never inspected
by the parser's decisions. -/
structure Span where
  lo : Nat
  hi : Nat
deriving DecidableEq, Repr

/-- `codemap::Spanned<T>`: a value together with its source span. -/
structure Spanned (α : Type) where
  node : α
  span : Span
deriving DecidableEq, Repr

/-- `parser::Var`: declaration-target pattern. -/
inductive Var where
  | Single (s : String)
  | Multi (ls : List Var)

mutual
/-- `parser::Node`: the AST node type. -/
inductive Node where
  | Block (ls : List Node)
  | Stmt (bx : Node)
  | Catch (ls : List Node)
  | Assn (lhs : Place) (rhs : Node)
  | If (cond : Node) (body : List Node) (els : Option Node)
  | ElseIf (cond : Node) (body : List Node)
  | Else (body : List Node)
  | For (decl : Var) (expr : Node) (body : List Node)
  | While (expr : Node) (body : List Node)
  | Loop (body : List Node)
  | Return (val : Option Node)
  | Break
  | Continue
  | Expr
  | Pass
  | Index (lhs : Node) (rhs : Node)
  | Method (owner : Node) (method : Node) (args : List Node)
  | Func (params : List String) (body : List Node)
  | Lambda (params : List String) (expr : Node)
  | Call (func : Node) (args : List Node)
  | BinExpr (lhs : Node) (op : Token) (rhs : Node)
  | UnExpr (val : Node) (op : Token)
  | Null
  | Bool (b : Bool)
  | Float (bits : Nat)
  | Int (i : Int)
  | Str (s : String)
  | Name (s : String)
  | Table

/-- `parser::Place`: assignment-target pattern. -/
inductive Place where
  | Single (n : Node)
  | Multi (ls : List Place)
end

/-- `parser::Op`: precedence class of a binary operator. -/
inductive Op where
  | Right (n : Nat)
  | Left (n : Nat)
  | None
deriving DecidableEq, Repr

/-- `parser::ParseErrorKind`. -/
inductive ParseErrorKind where
  | UnexpectedToken (t : Token)
  | UnexpectedEOF
  | UnknownBinaryOperator
  | UnknownUnaryOperator
  | UnusedPlaces
deriving DecidableEq, Repr

/-- The parser's input: the not-yet-consumed suffix of the spanned token
sequence (`ParseIter`). -/
abbrev Tokens := List (Spanned Token)

/-- `op_precedence`. -/
def op_precedence (op : Token) : Op :=
  match op with
  | .Add | .Sub => .Left 10
  | .Div | .Mul => .Left 20
  | .Car => .Right 30
  | _ => .None

/-- `peek_token`: true iff the next token is `kind` (nothing consumed). -/
def peek_token (it : Tokens) (kind : Token) : Bool :=
  match it with
  | tok :: _ => tok.node = kind
  | [] => false

/-- `use_token`: consume the next token iff it is `kind`; return whether it
matched together with the remaining input. -/
def use_token (it : Tokens) (kind : Token) :
    Bool × {rest : Tokens // rest.length ≤ it.length} :=
  match it with
  | tok :: rest =>
      if tok.node = kind then (true, ⟨rest, by simp⟩)
      else (false, ⟨tok :: rest, by simp⟩)
  | [] => (false, ⟨[], by simp⟩)

/-- `require_token`: error unless the next token is `kind`; consumes it. -/
def require_token (it : Tokens) (kind : Token) :
    Except ParseErrorKind {rest : Tokens // rest.length < it.length} :=
  match it with
  | tok :: rest =>
      if tok.node = kind then .ok ⟨rest, by simp⟩
      else .error (.UnexpectedToken tok.node)
  | [] => .error .UnexpectedEOF

/-- Outcome of one combination step of the precedence-climbing loop of
`parse_bin_expr`: either the new accumulated expression, or a `break` out of
the loop (the two defensive `Op::None` arms). -/
inductive Climb where
  | cont (e : Node)
  | stop

/-- The combination step of `parse_bin_expr` (the `expr = match (break_left,
expr.clone())` expression, lines 231-286 of `parser.rs`): given the flag
`break_left`, the accumulated expression, the just-consumed operator and the
just-parsed right-hand side, decide how to rebuild the tree. -/
def bin_combine (break_left : Bool) (expr : Node) (op : Token) (rhs : Node) :
    Climb :=
  match break_left, expr with
  | true, .BinExpr cur_lhs cur_op cur_rhs =>
      match op_precedence cur_op, op_precedence op with
      | _, .None => .stop
      | .None, _ => .stop
      | .Left n, .Left m =>
          if n ≥ m then
            .cont (.BinExpr (.BinExpr cur_lhs cur_op cur_rhs) op rhs)
          else
            .cont (.BinExpr cur_lhs cur_op (.BinExpr cur_rhs op rhs))
      | .Right n, .Right m =>
          if n > m then
            .cont (.BinExpr (.BinExpr cur_lhs cur_op cur_rhs) op rhs)
          else
            .cont (.BinExpr cur_lhs cur_op (.BinExpr cur_rhs op rhs))
      | .Right n, .Left m =>
          if n ≥ m then
            .cont (.BinExpr (.BinExpr cur_lhs cur_op cur_rhs) op rhs)
          else
            .cont (.BinExpr cur_lhs cur_op (.BinExpr cur_rhs op rhs))
      | .Left n, .Right m =>
          if n ≥ m then
            .cont (.BinExpr (.BinExpr cur_lhs cur_op cur_rhs) op rhs)
          else
            .cont (.BinExpr cur_lhs cur_op (.BinExpr cur_rhs op rhs))
  | _, _ => .cont (.BinExpr expr op rhs)

/-- Result of a parser that consumes at least one token on success. -/
abbrev PResS (α : Type) (it : Tokens) :=
  Except ParseErrorKind (α × {rest : Tokens // rest.length < it.length})

/-- Result of a parser that may succeed without consuming input. -/
abbrev PResW (α : Type) (it : Tokens) :=
  Except ParseErrorKind (α × {rest : Tokens // rest.length ≤ it.length})

/-- `parse_quark`: atomic literal expressions. -/
def parse_quark (it : Tokens) : PResS Node it :=
  match it with
  | [] => .error .UnexpectedEOF
  | tok :: rest =>
    match tok.node with
    | .Null => .ok (.Null, ⟨rest, by simp⟩)
    | .Bool x => .ok (.Bool x, ⟨rest, by simp⟩)
    | .Float x => .ok (.Float x, ⟨rest, by simp⟩)
    | .Int x => .ok (.Int x, ⟨rest, by simp⟩)
    | .Str x => .ok (.Str x, ⟨rest, by simp⟩)
    | .Name x => .ok (.Name x, ⟨rest, by simp⟩)
    | .Table => .ok (.Table, ⟨rest, by simp⟩)
    | x => .error (.UnexpectedToken x)

/-- `parse_name_as_str`: a `Name` token parsed as a `Str` node. -/
def parse_name_as_str (it : Tokens) : PResS Node it :=
  match it with
  | [] => .error .UnexpectedEOF
  | tok :: rest =>
    match tok.node with
    | .Name x => .ok (.Str x, ⟨rest, by simp⟩)
    | x => .error (.UnexpectedToken x)

/-- `parse_name`: a `Name` token parsed as a `Name` node. -/
def parse_name (it : Tokens) : PResS Node it :=
  match it with
  | [] => .error .UnexpectedEOF
  | tok :: rest =>
    match tok.node with
    | .Name x => .ok (.Name x, ⟨rest, by simp⟩)
    | x => .error (.UnexpectedToken x)

/-- The parameter-collecting loop of `parse_fn_params`, with the accumulated
parameter list made explicit. -/
def parse_fn_params_loop (params : List String) (it : Tokens) :
    PResW (List String) it :=
  match it with
  | [] => .ok (params, ⟨[], by simp⟩)
  | tok :: rest =>
    match tok.node with
    | .Name x =>
      match use_token rest .Com with
      | (true, ⟨r1, h1⟩) =>
        match parse_fn_params_loop (params ++ [x]) r1 with
        | .error e => .error e
        | .ok (out, ⟨r2, h2⟩) =>
            .ok (out, ⟨r2, by simp only [List.length_cons]; omega⟩)
      | (false, ⟨r1, h1⟩) =>
          .ok (params ++ [x], ⟨r1, by simp only [List.length_cons]; omega⟩)
    | _ => .ok (params, ⟨tok :: rest, by simp⟩)
termination_by it.length
decreasing_by simp only [List.length_cons] at *; omega

/-- `parse_fn_params`: a comma-separated parameter name list (possibly
empty, never failing). -/
def parse_fn_params (it : Tokens) : PResW (List String) it :=
  parse_fn_params_loop [] it

mutual

/-- `parse_decl`: a declaration target (`Var`). -/
def parse_decl (it : Tokens) : PResS Var it :=
  match it with
  | [] => .error .UnexpectedEOF
  | tok :: rest =>
    match tok.node with
    | .Sql =>
      match parse_decl_loop [] rest with
      | .error e => .error e
      | .ok (pieces, ⟨r1, h1⟩) =>
        match require_token r1 .Sqr with
        | .error e => .error e
        | .ok ⟨r2, h2⟩ =>
            .ok (.Multi pieces, ⟨r2, by simp only [List.length_cons]; omega⟩)
    | .Name x => .ok (.Single x, ⟨rest, by simp⟩)
    | x => .error (.UnexpectedToken x)
termination_by (it.length, 0)

/-- The piece-collecting loop of `parse_decl`'s bracketed case. -/
def parse_decl_loop (pieces : List Var) (it : Tokens) : PResS (List Var) it :=
  match parse_decl it with
  | .error e => .error e
  | .ok (p, ⟨r1, h1⟩) =>
    match use_token r1 .Com with
    | (true, ⟨r2, h2⟩) =>
      match parse_decl_loop (pieces ++ [p]) r2 with
      | .error e => .error e
      | .ok (out, ⟨r3, h3⟩) => .ok (out, ⟨r3, by omega⟩)
    | (false, ⟨r2, h2⟩) => .ok (pieces ++ [p], ⟨r2, by omega⟩)
termination_by (it.length, 1)

end

mutual

/-- `parse_ml_expr`: multi-line expression (function literal, catch block,
or an inline expression). -/
def parse_ml_expr (it : Tokens) : PResS Node it :=
  match it with
  | [] => .error .UnexpectedEOF
  | tok :: rest =>
    match tok.node with
    | .Func =>
      match require_token rest .Pal with
      | .error e => .error e
      | .ok ⟨r1, h1⟩ =>
        match parse_fn_params r1 with
        | .error e => .error e
        | .ok (params, ⟨r2, h2⟩) =>
          match require_token r2 .Par with
          | .error e => .error e
          | .ok ⟨r3, h3⟩ =>
            match parse_block r3 with
            | .error e => .error e
            | .ok (body, ⟨r4, h4⟩) =>
                .ok (.Func params body,
                     ⟨r4, by simp only [List.length_cons]; omega⟩)
    | .Catch =>
      match parse_block rest with
      | .error e => .error e
      | .ok (block, ⟨r1, h1⟩) =>
          .ok (.Catch block, ⟨r1, by simp only [List.length_cons]; omega⟩)
    | _ => parse_il_expr (tok :: rest)
termination_by (it.length, 6)

/-- `parse_il_expr`: inline expression (lambda or binary expression). -/
def parse_il_expr (it : Tokens) : PResS Node it :=
  match it with
  | [] => .error .UnexpectedEOF
  | tok :: rest =>
    match tok.node with
    | .Or =>
      match parse_fn_params rest with
      | .error e => .error e
      | .ok (params, ⟨r1, h1⟩) =>
        match require_token r1 .Or with
        | .error e => .error e
        | .ok ⟨r2, h2⟩ =>
          match parse_il_expr r2 with
          | .error e => .error e
          | .ok (expr, ⟨r3, h3⟩) =>
              .ok (.Lambda params expr,
                   ⟨r3, by simp only [List.length_cons]; omega⟩)
    | _ => parse_bin_expr (tok :: rest)
termination_by (it.length, 5)

/-- `parse_bin_expr`: precedence-climbed binary-operator chain. -/
def parse_bin_expr (it : Tokens) : PResS Node it :=
  match parse_un_expr it with
  | .error e => .error e
  | .ok (expr, ⟨r1, h1⟩) =>
    match parse_bin_loop expr false r1 with
    | .error e => .error e
    | .ok (out, ⟨r2, h2⟩) => .ok (out, ⟨r2, by omega⟩)
termination_by (it.length, 4)

/-- The `while let` climbing loop of `parse_bin_expr`, with the accumulated
expression and the `break_left` flag made explicit. -/
def parse_bin_loop (expr : Node) (break_left : Bool) (it : Tokens) :
    PResW Node it :=
  match it with
  | [] => .ok (expr, ⟨[], by simp⟩)
  | tok :: rest =>
    match op_precedence tok.node with
    | .None => .ok (expr, ⟨tok :: rest, by simp⟩)
    | _ =>
      match parse_un_expr rest with
      | .error e => .error e
      | .ok (rhs, ⟨r1, h1⟩) =>
        match bin_combine break_left expr tok.node rhs with
        | .stop => .ok (expr, ⟨r1, by simp only [List.length_cons]; omega⟩)
        | .cont e2 =>
          match parse_bin_loop e2 true r1 with
          | .error e => .error e
          | .ok (out, ⟨r2, h2⟩) =>
              .ok (out, ⟨r2, by simp only [List.length_cons]; omega⟩)
termination_by (it.length, 0)

/-- `parse_un_expr`: right-recursive unary expressions. -/
def parse_un_expr (it : Tokens) : PResS Node it :=
  match it with
  | [] => .error .UnexpectedEOF
  | tok :: rest =>
    match tok.node with
    | .Sub | .Not | .Neg =>
      match parse_un_expr rest with
      | .error e => .error e
      | .ok (val, ⟨r1, h1⟩) =>
          .ok (.UnExpr val tok.node, ⟨r1, by simp only [List.length_cons]; omega⟩)
    | _ => parse_simple (tok :: rest)
termination_by (it.length, 3)

/-- `parse_simple`: an atom followed by its postfix chain. -/
def parse_simple (it : Tokens) : PResS Node it :=
  match parse_atom it with
  | .error e => .error e
  | .ok (atom, ⟨r1, h1⟩) =>
    match parse_simple_loop atom r1 with
    | .error e => .error e
    | .ok (out, ⟨r2, h2⟩) => .ok (out, ⟨r2, by omega⟩)
termination_by (it.length, 2)

/-- The postfix chain loop of `parse_simple` (method calls, calls, indexing
and field access), with the accumulated atom made explicit. -/
def parse_simple_loop (atom : Node) (it : Tokens) : PResW Node it :=
  match it with
  | [] => .ok (atom, ⟨[], by simp⟩)
  | tok :: rest =>
    match tok.node with
    | .Col =>
      match parse_name_as_str rest with
      | .error e => .error e
      | .ok (method, ⟨r1, h1⟩) =>
        match parse_fn_args r1 with
        | .error e => .error e
        | .ok (args, ⟨r2, h2⟩) =>
          match parse_simple_loop (.Method atom method args) r2 with
          | .error e => .error e
          | .ok (out, ⟨r3, h3⟩) =>
              .ok (out, ⟨r3, by simp only [List.length_cons]; omega⟩)
    | .Pal =>
      match parse_fn_args (tok :: rest) with
      | .error e => .error e
      | .ok (args, ⟨r1, h1⟩) =>
        match parse_simple_loop (.Call atom args) r1 with
        | .error e => .error e
        | .ok (out, ⟨r2, h2⟩) => .ok (out, ⟨r2, by omega⟩)
    | .Sql =>
      match parse_bin_expr rest with
      | .error e => .error e
      | .ok (idx, ⟨r1, h1⟩) =>
        match require_token r1 .Sqr with
        | .error e => .error e
        | .ok ⟨r2, h2⟩ =>
          match parse_simple_loop (.Index atom idx) r2 with
          | .error e => .error e
          | .ok (out, ⟨r3, h3⟩) =>
              .ok (out, ⟨r3, by simp only [List.length_cons]; omega⟩)
    | .Dot =>
      match parse_name_as_str rest with
      | .error e => .error e
      | .ok (idx, ⟨r1, h1⟩) =>
        match parse_simple_loop (.Index atom idx) r1 with
        | .error e => .error e
        | .ok (out, ⟨r2, h2⟩) =>
            .ok (out, ⟨r2, by simp only [List.length_cons]; omega⟩)
    | _ => .ok (atom, ⟨tok :: rest, by simp⟩)
termination_by (it.length, 1)

/-- `parse_atom`: parenthesized expression or quark. -/
def parse_atom (it : Tokens) : PResS Node it :=
  match it with
  | [] => .error .UnexpectedEOF
  | tok :: rest =>
    match tok.node with
    | .Pal =>
      match parse_bin_expr rest with
      | .error e => .error e
      | .ok (out, ⟨r1, h1⟩) =>
        match require_token r1 .Par with
        | .error e => .error e
        | .ok ⟨r2, h2⟩ => .ok (out, ⟨r2, by simp only [List.length_cons]; omega⟩)
    | _ => parse_quark (tok :: rest)
termination_by (it.length, 1)

/-- `parse_fn_args`: a parenthesized comma-separated argument list. -/
def parse_fn_args (it : Tokens) : PResS (List Node) it :=
  match require_token it .Pal with
  | .error e => .error e
  | .ok ⟨r1, h1⟩ =>
    match parse_fn_args_loop [] r1 with
    | .error e => .error e
    | .ok (args, ⟨r2, h2⟩) =>
      match require_token r2 .Par with
      | .error e => .error e
      | .ok ⟨r3, h3⟩ => .ok (args, ⟨r3, by omega⟩)
termination_by (it.length, 0)

/-- The argument-collecting loop of `parse_fn_args`. -/
def parse_fn_args_loop (args : List Node) (it : Tokens) :
    PResW (List Node) it :=
  if peek_token it .Par then .ok (args, ⟨it, by simp⟩)
  else
    match parse_il_expr it with
    | .error e => .error e
    | .ok (arg, ⟨r1, h1⟩) =>
      match use_token r1 .Com with
      | (true, ⟨r2, h2⟩) =>
        match parse_fn_args_loop (args ++ [arg]) r2 with
        | .error e => .error e
        | .ok (out, ⟨r3, h3⟩) => .ok (out, ⟨r3, by omega⟩)
      | (false, ⟨r2, h2⟩) => .ok (args ++ [arg], ⟨r2, by omega⟩)
termination_by (it.length, 6)

/-- `parse_place`: an assignment target (`Place`). -/
def parse_place (it : Tokens) : PResS Place it :=
  match it with
  | [] => .error .UnexpectedEOF
  | tok :: rest =>
    match tok.node with
    | .Sql =>
      match parse_place_loop [] rest with
      | .error e => .error e
      | .ok (pieces, ⟨r1, h1⟩) =>
        match require_token r1 .Sqr with
        | .error e => .error e
        | .ok ⟨r2, h2⟩ =>
            .ok (.Multi pieces, ⟨r2, by simp only [List.length_cons]; omega⟩)
    | _ =>
      match parse_il_expr (tok :: rest) with
      | .error e => .error e
      | .ok (node, r) => .ok (.Single node, r)
termination_by (it.length, 6)

/-- The piece-collecting loop of `parse_place`'s bracketed case. -/
def parse_place_loop (pieces : List Place) (it : Tokens) :
    PResS (List Place) it :=
  match parse_place it with
  | .error e => .error e
  | .ok (p, ⟨r1, h1⟩) =>
    match use_token r1 .Com with
    | (true, ⟨r2, h2⟩) =>
      match parse_place_loop (pieces ++ [p]) r2 with
      | .error e => .error e
      | .ok (out, ⟨r3, h3⟩) => .ok (out, ⟨r3, by omega⟩)
    | (false, ⟨r2, h2⟩) => .ok (pieces ++ [p], ⟨r2, by omega⟩)
termination_by (it.length, 7)

/-- `parse_assn`: an assignment, or a bare expression statement, or the
`UnusedPlaces` error for a dangling bracketed place. -/
def parse_assn (it : Tokens) : PResS Node it :=
  match parse_place it with
  | .error e => .error e
  | .ok (_, ⟨[], _⟩) => .error .UnexpectedEOF
  | .ok (place, ⟨tok :: r2, h1⟩) =>
    match tok.node with
    | .Ass =>
      match parse_ml_expr r2 with
      | .error e => .error e
      | .ok (rhs, ⟨r3, h3⟩) =>
          .ok (.Assn place rhs, ⟨r3, by simp only [List.length_cons] at h1; omega⟩)
    | _ =>
      match place with
      | .Single bx => .ok (.Stmt bx, ⟨tok :: r2, h1⟩)
      | .Multi _ => .error .UnusedPlaces
termination_by (it.length, 7)
decreasing_by
all_goals simp_wf
all_goals simp only [List.length_cons] at *
all_goals first
  | (apply Prod.Lex.left; omega)
  | (apply Prod.Lex.right; omega)

/-- `parse_stmt`: a single statement. -/
def parse_stmt (it : Tokens) : PResS Node it :=
  match it with
  | [] => .error .UnexpectedEOF
  | tok :: rest =>
    match tok.node with
    | .Break => .ok (.Break, ⟨rest, by simp⟩)
    | .Continue => .ok (.Continue, ⟨rest, by simp⟩)
    | .If =>
      match parse_bin_expr rest with
      | .error e => .error e
      | .ok (cond, ⟨r1, h1⟩) =>
        match parse_block r1 with
        | .error e => .error e
        | .ok (body, ⟨r2, h2⟩) =>
            .ok (.If cond body none, ⟨r2, by simp only [List.length_cons]; omega⟩)
    | .Else =>
      match use_token rest .If with
      | (true, ⟨r1, h1⟩) =>
        match parse_bin_expr r1 with
        | .error e => .error e
        | .ok (cond, ⟨r2, h2⟩) =>
          match parse_block r2 with
          | .error e => .error e
          | .ok (body, ⟨r3, h3⟩) =>
              .ok (.ElseIf cond body, ⟨r3, by simp only [List.length_cons]; omega⟩)
      | (false, ⟨r1, h1⟩) =>
        match parse_block r1 with
        | .error e => .error e
        | .ok (body, ⟨r2, h2⟩) =>
            .ok (.Else body, ⟨r2, by simp only [List.length_cons]; omega⟩)
    | .For =>
      match parse_decl rest with
      | .error e => .error e
      | .ok (decl, ⟨r1, h1⟩) =>
        match require_token r1 .In with
        | .error e => .error e
        | .ok ⟨r2, h2⟩ =>
          match parse_il_expr r2 with
          | .error e => .error e
          | .ok (expr, ⟨r3, h3⟩) =>
            match parse_block r3 with
            | .error e => .error e
            | .ok (body, ⟨r4, h4⟩) =>
                .ok (.For decl expr body,
                     ⟨r4, by simp only [List.length_cons]; omega⟩)
    | .While =>
      match parse_il_expr rest with
      | .error e => .error e
      | .ok (expr, ⟨r1, h1⟩) =>
        match parse_block r1 with
        | .error e => .error e
        | .ok (body, ⟨r2, h2⟩) =>
            .ok (.While expr body, ⟨r2, by simp only [List.length_cons]; omega⟩)
    | .Loop =>
      match parse_block rest with
      | .error e => .error e
      | .ok (body, ⟨r1, h1⟩) =>
          .ok (.Loop body, ⟨r1, by simp only [List.length_cons]; omega⟩)
    | .Return =>
      if peek_token rest .End then .ok (.Return none, ⟨rest, by simp⟩)
      else
        match parse_ml_expr rest with
        | .error e => .error e
        | .ok (val, ⟨r1, h1⟩) =>
            .ok (.Return (some val), ⟨r1, by simp only [List.length_cons]; omega⟩)
    | .Pass => .ok (.Pass, ⟨rest, by simp⟩)
    | .Func | .Catch =>
      match parse_ml_expr (tok :: rest) with
      | .error e => .error e
      | .ok (expr, r) => .ok (.Stmt expr, r)
    | _ => parse_assn (tok :: rest)
termination_by (it.length, 8)

/-- `parse_block`: `Enter`, statements each terminated by `End`, `Exit`. -/
def parse_block (it : Tokens) : PResS (List Node) it :=
  match require_token it .Enter with
  | .error e => .error e
  | .ok ⟨r1, h1⟩ =>
    match parse_block_loop [] r1 with
    | .error e => .error e
    | .ok (nodes, ⟨r2, h2⟩) =>
      match require_token r2 .Exit with
      | .error e => .error e
      | .ok ⟨r3, h3⟩ => .ok (nodes, ⟨r3, by omega⟩)
termination_by (it.length, 0)

/-- The statement-collecting loop of `parse_block`. -/
def parse_block_loop (nodes : List Node) (it : Tokens) :
    PResW (List Node) it :=
  if peek_token it .Exit then .ok (nodes, ⟨it, by simp⟩)
  else
    match parse_stmt it with
    | .error e => .error e
    | .ok (stmt, ⟨r1, h1⟩) =>
      match require_token r1 .End with
      | .error e => .error e
      | .ok ⟨r2, h2⟩ =>
        match parse_block_loop (nodes ++ [stmt]) r2 with
        | .error e => .error e
        | .ok (out, ⟨r3, h3⟩) => .ok (out, ⟨r3, by omega⟩)
termination_by (it.length, 9)

/-- The statement-collecting loop of the public `parse` entry point. -/
def parse_top_loop (nodes : List Node) (it : Tokens) :
    PResW (List Node) it :=
  if peek_token it .EOF then .ok (nodes, ⟨it, by simp⟩)
  else
    match parse_stmt it with
    | .error e => .error e
    | .ok (stmt, ⟨r1, h1⟩) =>
      match require_token r1 .End with
      | .error e => .error e
      | .ok ⟨r2, h2⟩ =>
        match parse_top_loop (nodes ++ [stmt]) r2 with
        | .error e => .error e
        | .ok (out, ⟨r3, h3⟩) => .ok (out, ⟨r3, by omega⟩)
termination_by (it.length, 9)

end

/-- `parse`: the public entry point — statements until `EOF`, wrapped in the
root `Block`. -/
def parse (tokens : Tokens) : Except ParseErrorKind Node :=
  match parse_top_loop [] tokens with
  | .error e => .error e
  | .ok (nodes, _) => .ok (.Block nodes)

/-- `semck::CheckErrorKind`. -/
inductive CheckErrorKind where
  | NotInLoop
  | MissingIf
  | NotPlace
deriving DecidableEq, Repr

/-- `semck::SemChecker`: the checker's transient state. -/
structure SemChecker where
  in_loop : Bool
  has_if : Bool
deriving DecidableEq, Repr

/-- `SemChecker::new`. -/
def SemChecker.new : SemChecker := ⟨false, false⟩

/-- `SemChecker::is_place` (takes `&self`; the state is never read). -/
def is_place (c : SemChecker) (node : Node) : Except CheckErrorKind Unit :=
  match node with
  | .Name _ => .ok ()
  | .Index _ _ => .ok ()
  | _ => .error .NotPlace

mutual

/-- `SemChecker::check_place` (takes `&self`). -/
def check_place (c : SemChecker) (place : Place) : Except CheckErrorKind Unit :=
  match place with
  | .Single node =>
    match is_place c node with
    | .error e => .error e
    | .ok _ => .ok ()
  | .Multi places => check_place_list c places

/-- The `for pl in places` loop of `check_place`'s `Multi` arm, with the
`?`-propagation made explicit. -/
def check_place_list (c : SemChecker) (ls : List Place) :
    Except CheckErrorKind Unit :=
  match ls with
  | [] => .ok ()
  | p :: rest =>
    match check_place c p with
    | .error e => .error e
    | .ok _ => check_place_list c rest

end

mutual

/-- `SemChecker::check`, with both `&mut` references made explicit: the call
returns the check result together with the updated checker state and the
node value left behind through the mutable reference. -/
def check (c : SemChecker) (node : Node) :
    Except CheckErrorKind Unit × SemChecker × Node :=
  match node with
  | .Stmt bx =>
    match check c bx with
    | (r, c1, bx1) => (r, c1, .Stmt bx1)
  | .Block ls =>
    match check_list c ls with
    | (r, c1, ls1) => (r, c1, .Block ls1)
  | .Catch ls =>
    match check_list c ls with
    | (r, c1, ls1) => (r, c1, .Catch ls1)
  | .Loop body =>
    match check_list {c with in_loop := true} body with
    | (.error e, c1, body1) => (.error e, c1, .Loop body1)
    | (.ok _, c1, body1) => (.ok (), {c1 with in_loop := false}, .Loop body1)
  | .While expr body =>
    match check_list {c with in_loop := true} body with
    | (.error e, c1, body1) => (.error e, c1, .While expr body1)
    | (.ok _, c1, body1) => (.ok (), {c1 with in_loop := false}, .While expr body1)
  | .For decl expr body =>
    match check_list {c with in_loop := true} body with
    | (.error e, c1, body1) => (.error e, c1, .For decl expr body1)
    | (.ok _, c1, body1) => (.ok (), {c1 with in_loop := false}, .For decl expr body1)
  | .Break =>
    if !c.in_loop then (.error .NotInLoop, c, .Break) else (.ok (), c, .Break)
  | .Continue =>
    if !c.in_loop then (.error .NotInLoop, c, .Continue) else (.ok (), c, .Continue)
  | .Assn lhs rhs => (check_place c lhs, c, .Assn lhs rhs)
  | n => (.ok (), c, n)

/-- The `for mut n in ls` loops of `check`'s `Block`/`Catch`/loop-body arms,
with the `?`-propagation made explicit. -/
def check_list (c : SemChecker) (ls : List Node) :
    Except CheckErrorKind Unit × SemChecker × List Node :=
  match ls with
  | [] => (.ok (), c, [])
  | n :: rest =>
    match check c n with
    | (.error e, c1, n1) => (.error e, c1, n1 :: rest)
    | (.ok _, c1, n1) =>
      match check_list c1 rest with
      | (r2, c2, rest2) => (r2, c2, n1 :: rest2)

end

/-- The span-stripping step of `Module::new`:
`tokens.iter().map(|x| x.node.clone())`. -/
def hashable_tokens (tokens : Tokens) : List Token := tokens.map (·.node)

/-- The `lex_hash` computation of `Module::new`, parametrized by its external
collaborators: `serialize` (bincode, fallible) and `digest` (the 8-byte
Blake2b). The digest is taken over exactly the serialized span-stripped
token sequence. -/
def lex_hash {ε β δ : Type} (serialize : List Token → Except ε β)
    (digest : β → δ) (tokens : Tokens) : Except ε δ :=
  match serialize (hashable_tokens tokens) with
  | .ok x => .ok (digest x)
  | .error why => .error why

/-- A spanned token with a fixed dummy span, for concrete test inputs. -/
def tk (t : Token) : Spanned Token := ⟨t, ⟨0, 0⟩⟩

/- ### Helper lemmas -/

theorem check_place_list_ok_iff (c : SemChecker) (ls : List Place) :
    check_place_list c ls = .ok () ↔ ∀ p ∈ ls, check_place c p = .ok () := by
  induction ls with
  | nil => simp [check_place_list]
  | cons p rest ih =>
    rcases h : check_place c p with e | u
    · simp [check_place_list, h]
    · cases u; simp [check_place_list, h, ih]

theorem check_place_list_first_error (c : SemChecker) (l1 l2 : List Place)
    (p : Place) (e : CheckErrorKind) (h1 : ∀ q ∈ l1, check_place c q = .ok ())
    (h2 : check_place c p = .error e) :
    check_place_list c (l1 ++ p :: l2) = .error e := by
  induction l1 with
  | nil => simp [check_place_list, h2]
  | cons q rest ih =>
    have hq : check_place c q = .ok () := h1 q (by simp)
    simp only [List.cons_append, check_place_list, hq]
    exact ih (fun r hr => h1 r (by simp [hr]))

theorem ne_binexpr_self (a c : Node) (b : Token) : a ≠ Node.BinExpr a b c := by
  intro h
  have hs := congrArg sizeOf h
  simp at hs
  omega

mutual

theorem check_keeps_node (c : SemChecker) (n : Node) : (check c n).2.2 = n := by
  cases n with
  | Stmt bx =>
    have ih := check_keeps_node c bx
    rcases h : check c bx with ⟨r, c1, bx1⟩
    rw [h] at ih; simp only at ih
    simp [check, h, ih]
  | Block ls =>
    have ih := check_keeps_list c ls
    rcases h : check_list c ls with ⟨r, c1, ls1⟩
    rw [h] at ih; simp only at ih
    simp [check, h, ih]
  | Catch ls =>
    have ih := check_keeps_list c ls
    rcases h : check_list c ls with ⟨r, c1, ls1⟩
    rw [h] at ih; simp only at ih
    simp [check, h, ih]
  | Loop body =>
    have ih := check_keeps_list {c with in_loop := true} body
    rcases h : check_list {c with in_loop := true} body with ⟨r, c1, body1⟩
    rw [h] at ih; simp only at ih
    cases r <;> simp [check, h, ih]
  | While expr body =>
    have ih := check_keeps_list {c with in_loop := true} body
    rcases h : check_list {c with in_loop := true} body with ⟨r, c1, body1⟩
    rw [h] at ih; simp only at ih
    cases r <;> simp [check, h, ih]
  | For decl expr body =>
    have ih := check_keeps_list {c with in_loop := true} body
    rcases h : check_list {c with in_loop := true} body with ⟨r, c1, body1⟩
    rw [h] at ih; simp only at ih
    cases r <;> simp [check, h, ih]
  | Break => cases hc : c.in_loop <;> simp [check, hc]
  | Continue => cases hc : c.in_loop <;> simp [check, hc]
  | Assn lhs rhs => simp [check]
  | If cond body els => simp [check]
  | ElseIf cond body => simp [check]
  | Else body => simp [check]
  | Return val => simp [check]
  | Expr => simp [check]
  | Pass => simp [check]
  | Index lhs rhs => simp [check]
  | Method owner method args => simp [check]
  | Func params body => simp [check]
  | Lambda params expr => simp [check]
  | Call func args => simp [check]
  | BinExpr lhs op rhs => simp [check]
  | UnExpr val op => simp [check]
  | Null => simp [check]
  | Bool b => simp [check]
  | Float x => simp [check]
  | Int i => simp [check]
  | Str s => simp [check]
  | Name s => simp [check]
  | Table => simp [check]
termination_by sizeOf n

theorem check_keeps_list (c : SemChecker) (ls : List Node) :
    (check_list c ls).2.2 = ls := by
  cases ls with
  | nil => simp [check_list]
  | cons n rest =>
    have ihn := check_keeps_node c n
    rcases h : check c n with ⟨r, c1, n1⟩
    rw [h] at ihn; simp only at ihn
    cases r with
    | error e => simp [check_list, h, ihn]
    | ok u =>
      have ihr := check_keeps_list c1 rest
      rcases h2 : check_list c1 rest with ⟨r2, c2, rest2⟩
      rw [h2] at ihr; simp only at ihr
      simp [check_list, h, h2, ihn, ihr]
termination_by sizeOf ls

end

/- ### Claim theorems -/

/-- C6: the `lex_hash` fingerprint computed by `Module::new` is a function
only of the span-stripped token sequence: for any external serializer and
digest, two spanned token sequences with equal span-stripped sequences get
identical fingerprint results. -/
theorem lex_hash_function_of_stripped {ε β δ : Type}
    (serialize : List Token → Except ε β) (digest : β → δ) (ts1 ts2 : Tokens)
    (h : hashable_tokens ts1 = hashable_tokens ts2) :
    lex_hash serialize digest ts1 = lex_hash serialize digest ts2 := by
  simp [lex_hash, h]

/-- C6 witness: two one-token sequences differing only in spans have equal
stripped sequences and equal fingerprints. -/
theorem lex_hash_function_of_stripped_witness :
    hashable_tokens [⟨.Null, ⟨0, 4⟩⟩] = hashable_tokens [⟨.Null, ⟨7, 11⟩⟩] ∧
    lex_hash (fun l => (.ok l : Except Unit (List Token))) id [⟨.Null, ⟨0, 4⟩⟩]
      = lex_hash (fun l => (.ok l : Except Unit (List Token))) id [⟨.Null, ⟨7, 11⟩⟩] :=
  ⟨rfl, lex_hash_function_of_stripped _ _ _ _ rfl⟩

/-- C8: the checker leaves the tree unchanged — for every checker state and
node, the node value handed back through the mutable reference equals the
input node, whether the check succeeded or failed. -/
theorem semcheck_preserves_tree : ∀ (c : SemChecker) (n : Node),
    (check c n).2.2 = n :=
  fun c n => check_keeps_node c n

/-- C9: the public `parse` requires the trailing `EOF` marker: the empty
token sequence gives `UnexpectedEOF`, while the one-token `EOF` sequence
gives the empty program block. -/
theorem parse_eof_interface :
    parse [] = .error .UnexpectedEOF ∧
    ∀ s : Span, parse [⟨.EOF, s⟩] = .ok (.Block []) := by
  constructor
  · simp [parse, parse_top_loop, parse_stmt, peek_token]
  · intro s
    simp [parse, parse_top_loop, peek_token]

/-- C3 counterexample: a `Break` inside an `If` body, outside every loop
body, is not examined at all — `check` on a fresh checker returns `Ok`
rather than `Err(NotInLoop)`, because the catch-all arm of `check` does not
descend into `If` nodes. -/
theorem check_if_body_break_not_reached :
    (check SemChecker.new (.If (.Bool true) [.Break] none)).1 = .ok () ∧
    (check SemChecker.new (.If (.Bool true) [.Break] none)).1
      ≠ .error .NotInLoop := by
  constructor
  · simp [check]
  · simp [check]

/-- C3 (amended): on a fresh checker, `check` yields `Err(NotInLoop)`
exactly when its traversal reaches a `Break`/`Continue` with the single
loop-context flag false; the flag is set on entering any `Loop`/`While`/`For`
body and reset unconditionally when that body's traversal finishes, so a
`Break`/`Continue` reached by the traversal outside loop bodies fails, and a
`Break`/`Continue` in an outer loop's body after a completed nested inner
loop also fails — but nodes inside constructs the traversal does not enter
(such as `If` bodies) are never examined. -/
theorem check_loop_context_flag :
    (∀ c : SemChecker,
      (check c .Break).1 = (if c.in_loop then .ok () else .error .NotInLoop) ∧
      (check c .Continue).1 = (if c.in_loop then .ok () else .error .NotInLoop)) ∧
    (∀ (c : SemChecker) (body : List Node),
      (check c (.Loop body)).1 = (check_list {c with in_loop := true} body).1 ∧
      ((check_list {c with in_loop := true} body).1 = .ok () →
        (check c (.Loop body)).2.1 =
          {(check_list {c with in_loop := true} body).2.1 with in_loop := false})) ∧
    (∀ (c : SemChecker) (expr : Node) (body : List Node),
      (check c (.While expr body)).1 = (check_list {c with in_loop := true} body).1 ∧
      ((check_list {c with in_loop := true} body).1 = .ok () →
        (check c (.While expr body)).2.1 =
          {(check_list {c with in_loop := true} body).2.1 with in_loop := false})) ∧
    (∀ (c : SemChecker) (decl : Var) (expr : Node) (body : List Node),
      (check c (.For decl expr body)).1 = (check_list {c with in_loop := true} body).1 ∧
      ((check_list {c with in_loop := true} body).1 = .ok () →
        (check c (.For decl expr body)).2.1 =
          {(check_list {c with in_loop := true} body).2.1 with in_loop := false})) ∧
    (check SemChecker.new (.Block [.Break])).1 = .error .NotInLoop ∧
    (check SemChecker.new (.Block [.Continue])).1 = .error .NotInLoop ∧
    (check SemChecker.new (.Loop [.Loop [.Pass], .Break])).1 = .error .NotInLoop := by
  refine ⟨?_, ?_, ?_, ?_, ?_, ?_, ?_⟩
  · intro c
    cases hc : c.in_loop <;> simp [check, hc]
  · intro c body
    rcases h : check_list {c with in_loop := true} body with ⟨r, c1, body1⟩
    cases r <;> simp [check, h]
  · intro c expr body
    rcases h : check_list {c with in_loop := true} body with ⟨r, c1, body1⟩
    cases r <;> simp [check, h]
  · intro c decl expr body
    rcases h : check_list {c with in_loop := true} body with ⟨r, c1, body1⟩
    cases r <;> simp [check, h]
  · simp [check, check_list, SemChecker.new]
  · simp [check, check_list, SemChecker.new]
  · simp [check, check_list, SemChecker.new]

/-- C3 witness: the flag-reset conjunct applied to the concrete loop
`loop { pass }` on a fresh checker. -/
theorem check_loop_context_flag_witness :
    (check_list {SemChecker.new with in_loop := true} [.Pass]).1 = .ok () ∧
    (check SemChecker.new (.Loop [.Pass])).2.1 =
      {(check_list {SemChecker.new with in_loop := true} [.Pass]).2.1 with
        in_loop := false} :=
  ⟨by simp [check, check_list, SemChecker.new],
   (check_loop_context_flag.2.1 SemChecker.new [.Pass]).2
     (by simp [check, check_list, SemChecker.new])⟩

/-- C4: a `Place::Single` is accepted iff its wrapped node is a `Name` or
an `Index` and rejected with `NotPlace` otherwise; a `Place::Multi` is
accepted iff every nested piece is, with the first invalid piece aborting;
checking `[1, 2] = x` fails with `NotPlace`, and `[a, b] = x` succeeds. -/
theorem check_place_characterization :
    (∀ (c : SemChecker) (n : Node),
      check_place c (.Single n) = .ok () ↔
        (∃ s, n = .Name s) ∨ ∃ l r, n = .Index l r) ∧
    (∀ (c : SemChecker) (n : Node),
      ¬ ((∃ s, n = .Name s) ∨ ∃ l r, n = .Index l r) →
        check_place c (.Single n) = .error .NotPlace) ∧
    (∀ (c : SemChecker) (ls : List Place),
      check_place c (.Multi ls) = .ok () ↔ ∀ p ∈ ls, check_place c p = .ok ()) ∧
    (∀ (c : SemChecker) (l1 l2 : List Place) (p : Place) (e : CheckErrorKind),
      (∀ q ∈ l1, check_place c q = .ok ()) → check_place c p = .error e →
        check_place c (.Multi (l1 ++ p :: l2)) = .error e) ∧
    (check SemChecker.new
      (.Assn (.Multi [.Single (.Int 1), .Single (.Int 2)]) (.Name "x"))).1
      = .error .NotPlace ∧
    (check SemChecker.new
      (.Assn (.Multi [.Single (.Name "a"), .Single (.Name "b")]) (.Name "x"))).1
      = .ok () := by
  refine ⟨?_, ?_, ?_, ?_, ?_, ?_⟩
  · intro c n
    cases n <;> simp [check_place, is_place]
  · intro c n h
    cases n <;> simp_all [check_place, is_place]
  · intro c ls
    simp only [check_place]
    exact check_place_list_ok_iff c ls
  · intro c l1 l2 p e h1 h2
    simp only [check_place]
    exact check_place_list_first_error c l1 l2 p e h1 h2
  · simp [check, check_place, check_place_list, is_place, SemChecker.new]
  · simp [check, check_place, check_place_list, is_place, SemChecker.new]

/-- C4 witness: the `Single` characterization applied to the concrete node
`Name "a"` and the first-invalid-aborts conjunct applied to the concrete
pieces of `[1, 2]`. -/
theorem check_place_characterization_witness :
    check_place SemChecker.new (.Single (.Name "a")) = .ok () ∧
    check_place SemChecker.new
      (.Multi [.Single (.Int 1), .Single (.Int 2)]) = .error .NotPlace :=
  ⟨(check_place_characterization.1 SemChecker.new (.Name "a")).mpr
      (.inl ⟨"a", rfl⟩),
   check_place_characterization.2.2.2.1 SemChecker.new []
     [.Single (.Int 2)] (.Single (.Int 1)) .NotPlace (by simp)
     (check_place_characterization.2.1 SemChecker.new (.Int 1) (by simp))⟩

/-- C10 counterexample: an error raised from inside a loop body after a
completed nested inner loop leaves `in_loop` false, and the subsequent
`check` of a top-level `Break` on the same checker still fails with
`NotInLoop` — the claim's universal statement fails here. -/
theorem check_error_after_inner_loop_flag_false :
    (check SemChecker.new
      (.Loop [.Loop [], .Assn (.Single (.Int 1)) (.Int 2)])).1
      = .error .NotPlace ∧
    (check SemChecker.new
      (.Loop [.Loop [], .Assn (.Single (.Int 1)) (.Int 2)])).2.1.in_loop
      = false ∧
    (check (check SemChecker.new
      (.Loop [.Loop [], .Assn (.Single (.Int 1)) (.Int 2)])).2.1 .Break).1
      = .error .NotInLoop := by
  refine ⟨?_, ?_, ?_⟩ <;>
    simp [check, check_list, check_place, is_place, SemChecker.new]

/-- C10 (amended): when the error is raised from inside a loop body at a
point where the loop flag is still true — here `NotPlace` from an invalid
assignment target directly inside the loop body, with no completed nested
loop before it — the early return leaves `in_loop` true, so a subsequent
`check` of a top-level `Break` on the same checker succeeds, unlike a fresh
checker, which rejects it with `NotInLoop`. -/
theorem check_error_in_loop_keeps_flag :
    (check SemChecker.new (.Loop [.Assn (.Single (.Int 1)) (.Int 2)])).1
      = .error .NotPlace ∧
    (check SemChecker.new (.Loop [.Assn (.Single (.Int 1)) (.Int 2)])).2.1.in_loop
      = true ∧
    (check (check SemChecker.new
      (.Loop [.Assn (.Single (.Int 1)) (.Int 2)])).2.1 .Break).1 = .ok () ∧
    (check SemChecker.new .Break).1 = .error .NotInLoop := by
  refine ⟨?_, ?_, ?_, ?_⟩ <;>
    simp [check, check_list, check_place, is_place, SemChecker.new]

/-- C7: `parse` is a total function of the token sequence — it terminates on
every finite input (it is defined by well-founded recursion on the remaining
input) and returns either `Ok` with the root `Block` or `Err` with a
`ParseErrorKind`; in particular an unmatched open parenthesis followed
immediately by end-of-stream yields `UnexpectedEOF`. -/
theorem parse_total_result :
    (∀ ts : Tokens,
      (∃ ls, parse ts = .ok (.Block ls)) ∨ ∃ e, parse ts = .error e) ∧
    parse [⟨.Pal, ⟨0, 1⟩⟩] = .error .UnexpectedEOF := by
  constructor
  · intro ts
    rcases h : parse_top_loop [] ts with e | ⟨ls, r⟩
    · exact .inr ⟨e, by simp [parse, h]⟩
    · exact .inl ⟨ls, by simp [parse, h]⟩
  · simp [parse, parse_top_loop, parse_stmt, parse_assn, parse_place,
          parse_il_expr, parse_bin_expr, parse_un_expr, parse_simple,
          parse_simple_loop, parse_atom, parse_quark, peek_token]

/-- C1: the five literal precedence/associativity cases — `2 + 3 * 4`,
`2 * 3 + 4`, `2 - 3 - 4` (left-associative), `2 ^ 3 ^ 4` (right-associative
`Car`), and the nested unary `- - 2` — parse to exactly the specified
trees, for arbitrary spans on the encoding tokens. -/
theorem parse_precedence_literal_cases :
    (∀ s1 s2 s3 s4 s5 : Span,
      (parse_bin_expr [⟨.Int 2, s1⟩, ⟨.Add, s2⟩, ⟨.Int 3, s3⟩,
          ⟨.Mul, s4⟩, ⟨.Int 4, s5⟩]).map Prod.fst
        = .ok (.BinExpr (.Int 2) .Add (.BinExpr (.Int 3) .Mul (.Int 4)))) ∧
    (∀ s1 s2 s3 s4 s5 : Span,
      (parse_bin_expr [⟨.Int 2, s1⟩, ⟨.Mul, s2⟩, ⟨.Int 3, s3⟩,
          ⟨.Add, s4⟩, ⟨.Int 4, s5⟩]).map Prod.fst
        = .ok (.BinExpr (.BinExpr (.Int 2) .Mul (.Int 3)) .Add (.Int 4))) ∧
    (∀ s1 s2 s3 s4 s5 : Span,
      (parse_bin_expr [⟨.Int 2, s1⟩, ⟨.Sub, s2⟩, ⟨.Int 3, s3⟩,
          ⟨.Sub, s4⟩, ⟨.Int 4, s5⟩]).map Prod.fst
        = .ok (.BinExpr (.BinExpr (.Int 2) .Sub (.Int 3)) .Sub (.Int 4))) ∧
    (∀ s1 s2 s3 s4 s5 : Span,
      (parse_bin_expr [⟨.Int 2, s1⟩, ⟨.Car, s2⟩, ⟨.Int 3, s3⟩,
          ⟨.Car, s4⟩, ⟨.Int 4, s5⟩]).map Prod.fst
        = .ok (.BinExpr (.Int 2) .Car (.BinExpr (.Int 3) .Car (.Int 4)))) ∧
    (∀ s1 s2 s3 : Span,
      (parse_un_expr [⟨.Sub, s1⟩, ⟨.Sub, s2⟩, ⟨.Int 2, s3⟩]).map Prod.fst
        = .ok (.UnExpr (.UnExpr (.Int 2) .Sub) .Sub)) := by
  refine ⟨?_, ?_, ?_, ?_, ?_⟩ <;> intros <;>
    simp [parse_bin_expr, parse_bin_loop, parse_un_expr, parse_simple,
          parse_simple_loop, parse_atom, parse_quark, op_precedence,
          bin_combine, Except.map]

/-- C1 witness: the first case applied at concrete (zero) spans. -/
theorem parse_precedence_literal_cases_witness :
    (parse_bin_expr [⟨.Int 2, ⟨0, 0⟩⟩, ⟨.Add, ⟨0, 0⟩⟩, ⟨.Int 3, ⟨0, 0⟩⟩,
        ⟨.Mul, ⟨0, 0⟩⟩, ⟨.Int 4, ⟨0, 0⟩⟩]).map Prod.fst
      = .ok (.BinExpr (.Int 2) .Add (.BinExpr (.Int 3) .Mul (.Int 4))) :=
  parse_precedence_literal_cases.1 ⟨0, 0⟩ ⟨0, 0⟩ ⟨0, 0⟩ ⟨0, 0⟩ ⟨0, 0⟩

/-- C7 witness: totality applied at the concrete one-token input. -/
theorem parse_total_result_witness :
    (∃ ls, parse [tk .EOF] = .ok (.Block ls)) ∨
      ∃ e, parse [tk .EOF] = .error e :=
  parse_total_result.1 [tk .EOF]

/-- C8 witness: tree preservation applied at a concrete checker and node. -/
theorem semcheck_preserves_tree_witness :
    (check SemChecker.new (.Block [.Pass])).2.2 = .Block [.Pass] :=
  semcheck_preserves_tree SemChecker.new (.Block [.Pass])

/-- C9 witness: the `EOF`-only case applied at a concrete span. -/
theorem parse_eof_interface_witness :
    parse [⟨.EOF, ⟨3, 4⟩⟩] = .ok (.Block []) :=
  parse_eof_interface.2 ⟨3, 4⟩

/-- C2 counterexample: with current operator `Mul` (left-associative,
rank 20) and new operator `Add` (left-associative, rank 10), none of the
claim's four conditions holds (each requires the **new** rank to reach the
current rank), so the claim predicts attachment to the rightmost operand;
the code instead binds the new operator at the top. -/
theorem bin_combine_claim_counterexample :
    bin_combine true (.BinExpr (.Int 2) .Mul (.Int 3)) .Add (.Int 4) =
      .cont (.BinExpr (.BinExpr (.Int 2) .Mul (.Int 3)) .Add (.Int 4)) ∧
    ¬ ((∃ n m, op_precedence .Mul = .Left n ∧ op_precedence .Add = .Left m ∧ n ≤ m) ∨
       (∃ n m, op_precedence .Mul = .Right n ∧ op_precedence .Add = .Right m ∧ n < m) ∨
       (∃ n m, op_precedence .Mul = .Right n ∧ op_precedence .Add = .Left m ∧ n ≤ m) ∨
       (∃ n m, op_precedence .Mul = .Left n ∧ op_precedence .Add = .Right m ∧ n ≤ m)) := by
  constructor
  · simp [bin_combine, op_precedence]
  · rintro (⟨n, m, h1, h2, h3⟩ | ⟨n, m, h1, h2, h3⟩ |
            ⟨n, m, h1, h2, h3⟩ | ⟨n, m, h1, h2, h3⟩) <;>
      simp [op_precedence] at h1 h2 <;> omega

/-- C2 (amended): in the combination step, when the accumulated expression
is a `BinExpr` and both operators carry a registered precedence, the new
operator binds at the top exactly when: both are left-associative and the
**current** rank is ≥ the new rank; or both right-associative and the
current rank is > the new rank; or current right-associative / new
left-associative with current rank ≥ new rank; or current left-associative
/ new right-associative with current rank ≥ new rank; in every other case
the new operator attaches to the tree's rightmost operand, rebuilding as
`BinExpr(cur_lhs, cur_op, BinExpr(cur_rhs, op, rhs))`. -/
theorem bin_combine_top_binds
    (cur_lhs cur_rhs rhs : Node) (cur_op op : Token)
    (hc : op_precedence cur_op ≠ .None) (hn : op_precedence op ≠ .None) :
    (bin_combine true (.BinExpr cur_lhs cur_op cur_rhs) op rhs =
        .cont (.BinExpr (.BinExpr cur_lhs cur_op cur_rhs) op rhs) ↔
      (∃ n m, op_precedence cur_op = .Left n ∧ op_precedence op = .Left m ∧ m ≤ n) ∨
      (∃ n m, op_precedence cur_op = .Right n ∧ op_precedence op = .Right m ∧ m < n) ∨
      (∃ n m, op_precedence cur_op = .Right n ∧ op_precedence op = .Left m ∧ m ≤ n) ∨
      (∃ n m, op_precedence cur_op = .Left n ∧ op_precedence op = .Right m ∧ m ≤ n)) ∧
    (¬ ((∃ n m, op_precedence cur_op = .Left n ∧ op_precedence op = .Left m ∧ m ≤ n) ∨
        (∃ n m, op_precedence cur_op = .Right n ∧ op_precedence op = .Right m ∧ m < n) ∨
        (∃ n m, op_precedence cur_op = .Right n ∧ op_precedence op = .Left m ∧ m ≤ n) ∨
        (∃ n m, op_precedence cur_op = .Left n ∧ op_precedence op = .Right m ∧ m ≤ n)) →
      bin_combine true (.BinExpr cur_lhs cur_op cur_rhs) op rhs =
        .cont (.BinExpr cur_lhs cur_op (.BinExpr cur_rhs op rhs))) := by
  cases hcp : op_precedence cur_op with
  | None => exact absurd hcp hc
  | Right n =>
    cases hnp : op_precedence op with
    | None => exact absurd hnp hn
    | Right m =>
      constructor
      · simp [bin_combine, hcp, hnp, ne_binexpr_self]
      · intro hneg
        simp only [bin_combine, hcp, hnp]
        rw [if_neg]
        intro hgt
        exact hneg (.inr (.inl ⟨n, m, rfl, rfl, hgt⟩))
    | Left m =>
      constructor
      · simp [bin_combine, hcp, hnp, ne_binexpr_self]
      · intro hneg
        simp only [bin_combine, hcp, hnp]
        rw [if_neg]
        intro hge
        exact hneg (.inr (.inr (.inl ⟨n, m, rfl, rfl, hge⟩)))
  | Left n =>
    cases hnp : op_precedence op with
    | None => exact absurd hnp hn
    | Right m =>
      constructor
      · simp [bin_combine, hcp, hnp, ne_binexpr_self]
      · intro hneg
        simp only [bin_combine, hcp, hnp]
        rw [if_neg]
        intro hge
        exact hneg (.inr (.inr (.inr ⟨n, m, rfl, rfl, hge⟩)))
    | Left m =>
      constructor
      · simp [bin_combine, hcp, hnp, ne_binexpr_self]
      · intro hneg
        simp only [bin_combine, hcp, hnp]
        rw [if_neg]
        intro hge
        exact hneg (.inl ⟨n, m, rfl, rfl, hge⟩)

/-- C2 witness: the characterization applied at current `Mul`, new `Add`:
both precedences are registered and the top-bind equality holds through the
left/left condition 10 ≤ 20. -/
theorem bin_combine_top_binds_witness :
    op_precedence Token.Mul ≠ Op.None ∧ op_precedence Token.Add ≠ Op.None ∧
    bin_combine true (.BinExpr (.Int 2) .Mul (.Int 3)) .Add (.Int 4) =
      .cont (.BinExpr (.BinExpr (.Int 2) .Mul (.Int 3)) .Add (.Int 4)) :=
  ⟨by simp [op_precedence], by simp [op_precedence],
   (bin_combine_top_binds (.Int 2) (.Int 3) (.Int 4) .Mul .Add
       (by simp [op_precedence]) (by simp [op_precedence])).1.mpr
     (.inl ⟨20, 10, rfl, rfl, by omega⟩)⟩

/-- C5: when `parse_assn` has parsed a place and the next token is not the
assignment token, a bracketed `Place::Multi` yields `Err(UnusedPlaces)`
while a `Place::Single` is returned as a `Stmt` wrapping its expression. -/
theorem parse_assn_without_assign (it : Tokens) (place : Place)
    (rs : {rest : Tokens // rest.length < it.length}) (tok : Spanned Token)
    (r2 : Tokens) (hp : parse_place it = .ok (place, rs))
    (hv : rs.val = tok :: r2) (hne : tok.node ≠ .Ass) :
    (∀ ls, place = .Multi ls → parse_assn it = .error .UnusedPlaces) ∧
    (∀ bx, place = .Single bx → (parse_assn it).map Prod.fst = .ok (.Stmt bx)) := by
  obtain ⟨v, hlt⟩ := rs
  simp only at hv
  subst hv
  obtain ⟨tn, sp⟩ := tok
  simp only at hne
  constructor
  · rintro ls rfl
    cases tn <;> simp_all [parse_assn, hp]
  · rintro bx rfl
    cases tn <;> simp_all [parse_assn, hp, Except.map]

/-- C5 witness: the bracketed pattern `[a, b]` as a bare statement (next
token `End`, not `=`) fails with `UnusedPlaces`. -/
theorem parse_assn_without_assign_witness :
    parse_assn [tk .Sql, tk (.Name "a"), tk .Com, tk (.Name "b"), tk .Sqr, tk .End]
      = .error .UnusedPlaces :=
  ((parse_assn_without_assign
      [tk .Sql, tk (.Name "a"), tk .Com, tk (.Name "b"), tk .Sqr, tk .End]
      (.Multi [.Single (.Name "a"), .Single (.Name "b")])
      ⟨[tk .End], by simp⟩ (tk .End) []
      (by simp [parse_place, parse_place_loop, parse_il_expr, parse_bin_expr,
                parse_bin_loop, parse_un_expr, parse_simple, parse_simple_loop,
                parse_atom, parse_quark, use_token, require_token,
                op_precedence, tk])
      rfl (by simp [tk])).1)
    _ rfl

end Rain
